import Mathlib

/-!
Verification of the telemetry comparison core of `src/f1_utils.py`
(`compare_race_laps`, `compare_fastest_q_lap`).

The pipeline is: deduplicate each telemetry trace on the `Distance` column,
build a 1000-point common distance grid with `np.linspace`, resample both
traces onto the grid with pandas `reindex(method='nearest')`, classify each
grid point by a strict speed comparison, and build closed-loop colored
segments.  Distances, coordinates and speeds are modelled as rationals;
telemetry rows as a record of the columns the comparison reads.
-/

namespace F1Utils

/-- One row of the telemetry DataFrame, restricted to the columns the
comparison logic reads (`Distance`, `X`, `Y`, `Speed`). -/
structure TelemetrySample where
  distance : ℚ
  x : ℚ
  y : ℚ
  speed : ℚ
  deriving Repr, DecidableEq

/-- Accumulator form of pandas `drop_duplicates(subset='Distance')`:
a row is dropped when its `Distance` value was already seen earlier. -/
def dropDuplicatesAux : List TelemetrySample → List ℚ → List TelemetrySample
  | [], _ => []
  | s :: rest, seen =>
    if s.distance ∈ seen then dropDuplicatesAux rest seen
    else s :: dropDuplicatesAux rest (s.distance :: seen)

/-- `telemetry.drop_duplicates(subset='Distance')` (keep='first' default):
keep the first row for each `Distance` value, in order. -/
def dropDuplicates (tr : List TelemetrySample) : List TelemetrySample :=
  dropDuplicatesAux tr []

/-- Reference formulation of the spec's "keep first occurrence" rule:
keep the head and recursively drop every later row sharing its distance. -/
def keepFirstOccurrences : List TelemetrySample → List TelemetrySample
  | [] => []
  | s :: rest =>
    s :: keepFirstOccurrences (rest.filter (fun r => decide (r.distance ≠ s.distance)))
  termination_by l => l.length
  decreasing_by
    simp only [List.length_cons]
    exact Nat.lt_succ_of_le (List.length_filter_le _ _)

/-- pandas `Series.abs()` / numpy `abs` on one value, written with an
explicit sign test so that it evaluates on concrete rationals. -/
def absQ (x : ℚ) : ℚ := if x < 0 then -x else x

/-- pandas `Series.min()` on a list of values (`None` for an empty series,
where pandas would produce NaN). -/
def seriesMin : List ℚ → Option ℚ
  | [] => none
  | d :: ds =>
    match seriesMin ds with
    | none => some d
    | some m => some (min d m)

/-- pandas `Series.max()` on a list of values. -/
def seriesMax : List ℚ → Option ℚ
  | [] => none
  | d :: ds =>
    match seriesMax ds with
    | none => some d
    | some m => some (max d m)

/-- The distances column of a trace. -/
def distances (tr : List TelemetrySample) : List ℚ :=
  tr.map (fun s => s.distance)

/-- `np.linspace(start, stop, num)` with the default `endpoint=True`:
`num` evenly spaced values; element `i` is `start + i*(stop-start)/(num-1)`.
Over ℚ the last element equals `stop` exactly, as numpy guarantees. -/
def linspace (start stop : ℚ) (num : ℕ) : List ℚ :=
  (List.range num).map (fun (i : ℕ) => start + (i : ℚ) * (stop - start) / ((num : ℚ) - 1))

/-- The `common_distance` array of `compare_race_laps` (lines 61-65):
`np.linspace(max(d1.min(), d2.min()), min(d1.max(), d2.max()), 1000)`.
The min/max are taken on the raw (pre-dedup) traces, exactly as in the
source; the `[]` branch corresponds to an empty trace, where pandas
`.min()`/`.max()` give NaN. -/
def commonGrid (t1 t2 : List TelemetrySample) : List ℚ :=
  match seriesMin (distances t1), seriesMin (distances t2),
        seriesMax (distances t1), seriesMax (distances t2) with
  | some m1, some m2, some M1, some M2 => linspace (max m1 m2) (min M1 M2) 1000
  | _, _, _, _ => []

/-- pandas `Index.get_indexer(target, method='pad')` for a sorted index:
the last position whose value is `≤ t`, i.e. `searchsorted(t, 'right') - 1`
(`none` when every value exceeds `t`).  `reindex` only accepts a monotonic
index, so the sorted semantics is the one exercised by the source. -/
def padIndexer (ds : List ℚ) (t : ℚ) : Option ℕ :=
  match ds.countP (fun d => decide (d ≤ t)) with
  | 0 => none
  | Nat.succ n => some n

/-- pandas `Index.get_indexer(target, method='backfill')` for a sorted index:
the first position whose value is `≥ t`, i.e. `searchsorted(t, 'left')`
(`none` when every value is below `t`). -/
def backfillIndexer (ds : List ℚ) (t : ℚ) : Option ℕ :=
  if ds.countP (fun d => decide (d < t)) = ds.length then none
  else some (ds.countP (fun d => decide (d < t)))

/-- pandas `Index._get_nearest_indexer` for a monotonically increasing index:
take the pad (left) candidate only when it is strictly closer, otherwise the
backfill (right) candidate; fall back to whichever side exists. -/
def nearestIndexer (ds : List ℚ) (t : ℚ) : Option ℕ :=
  match padIndexer ds t, backfillIndexer ds t with
  | none, none => none
  | some l, none => some l
  | none, some r => some r
  | some l, some r =>
    if absQ (ds.getD l 0 - t) < absQ (ds.getD r 0 - t) then some l else some r

/-- One row of `clean.set_index('Distance').reindex(grid, method='nearest')`
(lines 67-68): the trace row selected for target distance `t`.  `none` models
the NaN-filled row pandas produces when the trace is empty. -/
def reindexNearest (tr : List TelemetrySample) (t : ℚ) : Option TelemetrySample :=
  (nearestIndexer (distances tr) t).bind (fun i => tr[i]?)

/-- `driver_1_faster = interp_driver_1['Speed'] > interp_driver_2['Speed']`
(line 71): elementwise strict comparison of the resampled speed series. -/
def driver1Faster (s1 s2 : List ℚ) : List Bool :=
  List.zipWith (fun a b => decide (b < a)) s1 s2

/-- `np.where(mask, 'red', 'blue')`: red marks driver 1, blue driver 2. -/
def whereColors (mask : List Bool) : List String :=
  mask.map (fun b => if b then "red" else "blue")

/-- `colors = np.where(driver_1_faster, 'red', 'blue')` (line 72). -/
def dominanceColors (s1 s2 : List ℚ) : List String :=
  whereColors (driver1Faster s1 s2)

/-- `np.append(x_vals, x_vals[0])` applied to the (x, y) path (lines 78-79):
close the loop by appending the first point (on an empty path `x_vals[0]`
raises in numpy; the claims only concern non-empty paths). -/
def closeLoop (pts : List (ℚ × ℚ)) : List (ℚ × ℚ) :=
  match pts with
  | [] => []
  | p :: rest => (p :: rest) ++ [p]

/-- `segments = np.concatenate([points[:-1], points[1:]], axis=1)` (line 84):
segment `i` connects point `i` to point `i+1`. -/
def segmentsOf (pts : List (ℚ × ℚ)) : List ((ℚ × ℚ) × (ℚ × ℚ)) :=
  pts.zip pts.tail

/-- `colors[:-1]` (line 85): the color sequence handed to `LineCollection`,
with the entry for the synthetic closing segment dropped. -/
def usedColors (colors : List String) : List String :=
  colors.dropLast

/-- Lap selection of `compare_race_laps` (lines 39-44).  `specificLap n`
models `pick_laps(lap_num)`, `fastest` models `pick_fastest()`. -/
inductive LapSelection where
  | specificLap : Int → LapSelection
  | fastest : LapSelection
  deriving Repr, DecidableEq

/-- `if lap_num >= 0 and lap_num <= session.total_laps: pick_laps(lap_num)
else: pick_fastest()` (lines 39-44). -/
def selectLap (lapNum totalLaps : Int) : LapSelection :=
  if 0 ≤ lapNum ∧ lapNum ≤ totalLaps then LapSelection.specificLap lapNum
  else LapSelection.fastest

/-- Corner-placement lookup (lines 156-158):
`idx = (telemetry['Distance'] - d).abs().idxmin(); telemetry.loc[idx]`.
`idxmin` returns the first index attaining the minimum, so the head wins
ties against the best row of the tail. -/
def idxminLookup : List TelemetrySample → ℚ → Option TelemetrySample
  | [], _ => none
  | s :: rest, t =>
    match idxminLookup rest t with
    | none => some s
    | some b => if absQ (b.distance - t) < absQ (s.distance - t) then some b else some s

/-- Speed comparison on resampled rows; a missing (NaN) row compares as
False, as NaN comparisons do in pandas. -/
def optSpeedGT (o1 o2 : Option TelemetrySample) : Bool :=
  match o1, o2 with
  | some a, some b => decide (b.speed < a.speed)
  | _, _ => false

/-- The dominance-color pipeline of `compare_race_laps` (lines 51-72):
dedup both traces, build the common grid, resample both traces onto it,
and color each grid point by the strict speed comparison.  The source
performs no overlap check before building the grid. -/
def trackDominanceColors (t1 t2 : List TelemetrySample) : List String :=
  let clean1 := dropDuplicates t1
  let clean2 := dropDuplicates t2
  let grid := commonGrid t1 t2
  let interp1 := grid.map (reindexNearest clean1)
  let interp2 := grid.map (reindexNearest clean2)
  whereColors (List.zipWith optSpeedGT interp1 interp2)

/-- Digit character for a value in 0..9. -/
def digitChar (n : ℕ) : Char := Char.ofNat (48 + n)

/-- Decimal digits of `n`, most significant first (fuel-indexed; `fuel ≥ n`
suffices since `n / 10 < n` for positive `n`). -/
def decimalDigitsAux : ℕ → ℕ → List Char
  | _, 0 => []
  | 0, _ => []
  | fuel + 1, n => decimalDigitsAux fuel (n / 10) ++ [digitChar (n % 10)]

/-- Python `str(n)` for a natural number. -/
def decimalDigits (n : ℕ) : List Char :=
  if n = 0 then ['0'] else decimalDigitsAux n n

/-- Python format spec `:0{w}` on a natural number: decimal digits,
left-padded with zeros to width `w`. -/
def pythonPad (w : ℕ) (n : ℕ) : List Char :=
  List.replicate (w - (decimalDigits n).length) '0' ++ decimalDigits n

/-- `Timedelta.components.minutes` for a duration of `ns` nanoseconds. -/
def tdMinutes (ns : ℕ) : ℕ := ns / 60000000000 % 60

/-- `Timedelta.components.seconds`. -/
def tdSeconds (ns : ℕ) : ℕ := ns / 1000000000 % 60

/-- `Timedelta.components.milliseconds`. -/
def tdMilliseconds (ns : ℕ) : ℕ := ns / 1000000 % 1000

/-- Lap-time formatting (lines 91-98):
`f"{c.minutes:02}:{c.seconds:02}.{int(c.milliseconds):03}"` on the
`components` of the lap duration, here given in nanoseconds. -/
def formatLapTime (ns : ℕ) : List Char :=
  pythonPad 2 (tdMinutes ns) ++ [':'] ++ pythonPad 2 (tdSeconds ns)
    ++ ['.'] ++ pythonPad 3 (tdMilliseconds ns)

/-- The formatted lap time as a string. -/
def formatLapTimeStr (ns : ℕ) : String :=
  String.mk (formatLapTime ns)

/-- Non-overlapping input for the degenerate-overlap analysis: a trace
covering distances 0..100. -/
def degenerateTrace1 : List TelemetrySample :=
  [⟨0, 0, 0, 10⟩, ⟨50, 1, 1, 10⟩, ⟨100, 2, 2, 10⟩]

/-- Non-overlapping input for the degenerate-overlap analysis: a trace
covering distances 150..250, disjoint from `degenerateTrace1`. -/
def degenerateTrace2 : List TelemetrySample :=
  [⟨150, 0, 0, 20⟩, ⟨200, 1, 1, 20⟩, ⟨250, 2, 2, 20⟩]

/- ### Basic lemmas -/

/-- `absQ` is the absolute value. -/
theorem absQ_eq_abs (x : ℚ) : absQ x = |x| := by
  rw [absQ]
  split
  · next h => rw [abs_of_neg h]
  · next h => rw [abs_of_nonneg (not_lt.1 h)]

theorem linspace_length (s e : ℚ) (n : ℕ) : (linspace s e n).length = n := by
  rw [linspace, List.length_map, List.length_range]

theorem linspace_getElem? (s e : ℚ) {n i : ℕ} (hi : i < n) :
    (linspace s e n)[i]? = some (s + i * (e - s) / ((n : ℚ) - 1)) := by
  rw [linspace, List.getElem?_map, List.getElem?_range hi]
  rfl

theorem seriesMin_of_ne_nil (ds : List ℚ) (h : ds ≠ []) : ∃ m, seriesMin ds = some m := by
  cases ds with
  | nil => exact absurd rfl h
  | cons d ds => cases hm : seriesMin ds <;> simp [seriesMin, hm]

theorem seriesMax_of_ne_nil (ds : List ℚ) (h : ds ≠ []) : ∃ m, seriesMax ds = some m := by
  cases ds with
  | nil => exact absurd rfl h
  | cons d ds => cases hm : seriesMax ds <;> simp [seriesMax, hm]

theorem distances_ne_nil {tr : List TelemetrySample} (h : tr ≠ []) : distances tr ≠ [] := by
  cases tr with
  | nil => exact absurd rfl h
  | cons s rest => simp [distances]

theorem commonGrid_eq_linspace (t1 t2 : List TelemetrySample) {m1 m2 M1 M2 : ℚ}
    (h1 : seriesMin (distances t1) = some m1) (h2 : seriesMin (distances t2) = some m2)
    (h3 : seriesMax (distances t1) = some M1) (h4 : seriesMax (distances t2) = some M2) :
    commonGrid t1 t2 = linspace (max m1 m2) (min M1 M2) 1000 := by
  simp [commonGrid, h1, h2, h3, h4]

/- ### C2: common grid construction -/

/-- C2: for non-empty traces the common grid is `np.linspace` over the
intersection of the distance ranges: exactly 1000 points, first point equal
to `max` of the minima, last point equal to `min` of the maxima, point `i`
at `start + i*(end-start)/999`. -/
theorem grid_construction (t1 t2 : List TelemetrySample) (h1 : t1 ≠ []) (h2 : t2 ≠ []) :
    ∃ m1 m2 M1 M2 : ℚ,
      seriesMin (distances t1) = some m1 ∧ seriesMin (distances t2) = some m2 ∧
      seriesMax (distances t1) = some M1 ∧ seriesMax (distances t2) = some M2 ∧
      (commonGrid t1 t2).length = 1000 ∧
      (commonGrid t1 t2).head? = some (max m1 m2) ∧
      (commonGrid t1 t2).getLast? = some (min M1 M2) ∧
      ∀ i : ℕ, i < 1000 → (commonGrid t1 t2)[i]? =
        some (max m1 m2 + i * (min M1 M2 - max m1 m2) / 999) := by
  obtain ⟨m1, hm1⟩ := seriesMin_of_ne_nil _ (distances_ne_nil h1)
  obtain ⟨m2, hm2⟩ := seriesMin_of_ne_nil _ (distances_ne_nil h2)
  obtain ⟨M1, hM1⟩ := seriesMax_of_ne_nil _ (distances_ne_nil h1)
  obtain ⟨M2, hM2⟩ := seriesMax_of_ne_nil _ (distances_ne_nil h2)
  have hg := commonGrid_eq_linspace t1 t2 hm1 hm2 hM1 hM2
  have hnum : ((1000 : ℕ) : ℚ) - 1 = 999 := by norm_num
  refine ⟨m1, m2, M1, M2, hm1, hm2, hM1, hM2, ?_, ?_, ?_, ?_⟩
  · rw [hg, linspace_length]
  · rw [hg, List.head?_eq_getElem?, linspace_getElem? _ _ (by norm_num : (0:ℕ) < 1000)]
    norm_num
  · rw [hg, List.getLast?_eq_getElem?, linspace_length]
    rw [linspace_getElem? _ _ (by norm_num : (999:ℕ) < 1000)]
    rw [hnum]
    congr 1
    push_cast
    field_simp
  · intro i hi
    rw [hg, linspace_getElem? _ _ hi, hnum]

/-- Witness for C2 at the spec's example: trace ranges [0, 100] and
[20, 120]. -/
theorem grid_construction_witness :
    ([⟨0, 0, 0, 10⟩, ⟨100, 1, 1, 10⟩] : List TelemetrySample) ≠ [] ∧
    ([⟨20, 0, 0, 20⟩, ⟨120, 1, 1, 20⟩] : List TelemetrySample) ≠ [] ∧
    (∃ m1 m2 M1 M2 : ℚ,
      seriesMin (distances [⟨0, 0, 0, 10⟩, ⟨100, 1, 1, 10⟩]) = some m1 ∧
      seriesMin (distances [⟨20, 0, 0, 20⟩, ⟨120, 1, 1, 20⟩]) = some m2 ∧
      seriesMax (distances [⟨0, 0, 0, 10⟩, ⟨100, 1, 1, 10⟩]) = some M1 ∧
      seriesMax (distances [⟨20, 0, 0, 20⟩, ⟨120, 1, 1, 20⟩]) = some M2 ∧
      (commonGrid [⟨0, 0, 0, 10⟩, ⟨100, 1, 1, 10⟩] [⟨20, 0, 0, 20⟩, ⟨120, 1, 1, 20⟩]).length = 1000 ∧
      (commonGrid [⟨0, 0, 0, 10⟩, ⟨100, 1, 1, 10⟩] [⟨20, 0, 0, 20⟩, ⟨120, 1, 1, 20⟩]).head? = some (max m1 m2) ∧
      (commonGrid [⟨0, 0, 0, 10⟩, ⟨100, 1, 1, 10⟩] [⟨20, 0, 0, 20⟩, ⟨120, 1, 1, 20⟩]).getLast? = some (min M1 M2) ∧
      ∀ i : ℕ, i < 1000 →
        (commonGrid [⟨0, 0, 0, 10⟩, ⟨100, 1, 1, 10⟩] [⟨20, 0, 0, 20⟩, ⟨120, 1, 1, 20⟩])[i]? =
          some (max m1 m2 + i * (min M1 M2 - max m1 m2) / 999)) :=
  ⟨by decide, by decide, grid_construction _ _ (by decide) (by decide)⟩

/- ### C1: dominance classification -/

/-- C1: the classifier produces one label per grid point; the label marks
driver 1 (red) exactly when driver 1's resampled speed is strictly greater,
and driver 2 (blue) otherwise, so ties go to driver 2. -/
theorem dominance_classification (s1 s2 : List ℚ) (h : s1.length = s2.length) :
    (driver1Faster s1 s2).length = s1.length ∧
    (dominanceColors s1 s2).length = s1.length ∧
    ∀ i : ℕ, ∀ h1 : i < s1.length, ∀ h2 : i < s2.length,
      ((driver1Faster s1 s2)[i]? = some true ↔ s2[i] < s1[i]) ∧
      ((driver1Faster s1 s2)[i]? = some false ↔ ¬ s2[i] < s1[i]) ∧
      (dominanceColors s1 s2)[i]? = some (if s2[i] < s1[i] then ("red") else ("blue")) := by
  refine ⟨?_, ?_, ?_⟩
  · simp [driver1Faster, h]
  · simp [dominanceColors, whereColors, driver1Faster, h]
  · intro i h1 h2
    have e1 : (driver1Faster s1 s2)[i]? = some (decide (s2[i] < s1[i])) := by
      simp [driver1Faster, List.getElem?_zipWith, List.getElem?_eq_getElem h1,
        List.getElem?_eq_getElem h2]
    refine ⟨?_, ?_, ?_⟩
    · rw [e1]
      by_cases hc : s2[i] < s1[i] <;> simp [hc]
    · rw [e1]
      by_cases hc : s2[i] < s1[i] <;> simp [hc]
    · have : (dominanceColors s1 s2)[i]? = Option.map (fun b => if b then ("red") else ("blue"))
          (driver1Faster s1 s2)[i]? := by
        simp [dominanceColors, whereColors, List.getElem?_map]
      rw [this, e1]
      by_cases hc : s2[i] < s1[i] <;> simp [hc]

/-- Witness for C1 at the spec's example: speeds [100, 90, 80] vs
[90, 90, 90] yield labels red, blue, blue (tie at index 1 goes to blue). -/
theorem dominance_classification_witness :
    ([100, 90, 80] : List ℚ).length = ([90, 90, 90] : List ℚ).length ∧
    ((driver1Faster [100, 90, 80] [90, 90, 90]).length = ([100, 90, 80] : List ℚ).length ∧
      (dominanceColors [100, 90, 80] [90, 90, 90]).length = ([100, 90, 80] : List ℚ).length ∧
      ∀ i : ℕ, ∀ h1 : i < ([100, 90, 80] : List ℚ).length, ∀ h2 : i < ([90, 90, 90] : List ℚ).length,
        ((driver1Faster [100, 90, 80] [90, 90, 90])[i]? = some true ↔
          ([90, 90, 90] : List ℚ)[i] < ([100, 90, 80] : List ℚ)[i]) ∧
        ((driver1Faster [100, 90, 80] [90, 90, 90])[i]? = some false ↔
          ¬ ([90, 90, 90] : List ℚ)[i] < ([100, 90, 80] : List ℚ)[i]) ∧
        (dominanceColors [100, 90, 80] [90, 90, 90])[i]? =
          some (if ([90, 90, 90] : List ℚ)[i] < ([100, 90, 80] : List ℚ)[i]
            then ("red") else ("blue"))) ∧
    dominanceColors [100, 90, 80] [90, 90, 90] = [("red"), ("blue"), ("blue")] :=
  ⟨by decide, dominance_classification _ _ (by decide), by decide⟩

/- ### C8: out-of-range lap number falls back to the fastest lap -/

/-- C8 counterexample: with 58 total laps, lap number 999 is out of range,
yet the selection silently falls back to `pick_fastest()` instead of
surfacing an invalid-input failure. -/
theorem lap_selection_counterexample :
    selectLap 999 58 = LapSelection.fastest ∧
    selectLap 999 58 ≠ LapSelection.specificLap 999 := by
  decide

/-- C8 (amended): a lap number in [0, total_laps] selects that specific lap;
any other lap number makes the comparison silently select each driver's
fastest lap instead, with no error surfaced. -/
theorem lap_selection (lapNum totalLaps : Int) :
    (0 ≤ lapNum ∧ lapNum ≤ totalLaps →
      selectLap lapNum totalLaps = LapSelection.specificLap lapNum) ∧
    (lapNum < 0 ∨ totalLaps < lapNum →
      selectLap lapNum totalLaps = LapSelection.fastest) := by
  constructor
  · intro h
    simp [selectLap, h]
  · intro h
    rw [selectLap, if_neg]
    omega

/-- Witness for C8: lap 7 of 58 is selected directly; the default -1 falls
back to the fastest lap. -/
theorem lap_selection_witness :
    selectLap 7 58 = LapSelection.specificLap 7 ∧
    selectLap (-1) 58 = LapSelection.fastest :=
  ⟨(lap_selection 7 58).1 (by decide), (lap_selection (-1) 58).2 (by decide)⟩

/- ### C9: lap-time formatting -/

theorem decimalDigitsAux_length_le (fuel : ℕ) :
    ∀ n k : ℕ, n ≤ fuel → n < 10 ^ k → (decimalDigitsAux fuel n).length ≤ k := by
  induction fuel with
  | zero =>
    intro n k hn _
    have hn0 : n = 0 := Nat.le_zero.1 hn
    subst hn0
    simp [decimalDigitsAux]
  | succ fuel ih =>
    intro n k hn hk
    match n with
    | 0 => simp [decimalDigitsAux]
    | m + 1 =>
      rcases k with _ | k
      · rw [pow_zero] at hk
        omega
      · show (decimalDigitsAux fuel ((m + 1) / 10) ++ [digitChar ((m + 1) % 10)]).length ≤ k + 1
        rw [List.length_append]
        have hd : (m + 1) / 10 ≤ fuel := by omega
        have hlt : (m + 1) / 10 < 10 ^ k := by
          rw [Nat.div_lt_iff_lt_mul (by norm_num)]
          calc m + 1 < 10 ^ (k + 1) := hk
            _ = 10 ^ k * 10 := by rw [pow_succ]
        have := ih ((m + 1) / 10) k hd hlt
        simp only [List.length_cons, List.length_nil]
        omega

theorem decimalDigits_length_le {n k : ℕ} (h : n < 10 ^ k) (hk : 1 ≤ k) :
    (decimalDigits n).length ≤ k := by
  rw [decimalDigits]
  split
  · simpa using hk
  · exact decimalDigitsAux_length_le n n k le_rfl h

theorem pythonPad_length_eq (w n : ℕ) (hL : (decimalDigits n).length ≤ w) :
    (pythonPad w n).length = w := by
  rw [pythonPad, List.length_append, List.length_replicate]
  omega

theorem pad2_length (n : ℕ) (h : n < 100) : (pythonPad 2 n).length = 2 := by
  refine pythonPad_length_eq 2 n (decimalDigits_length_le ?_ (by norm_num))
  norm_num
  omega

theorem pad3_length (n : ℕ) (h : n < 1000) : (pythonPad 3 n).length = 3 := by
  refine pythonPad_length_eq 3 n (decimalDigits_length_le ?_ (by norm_num))
  norm_num
  omega

/-- C9: for durations under one hour the formatter yields
minutes:seconds.milliseconds with the minute field equal to the total
minutes, each field zero-padded to its width (2, 2 and 3 characters), and
the sub-millisecond remainder truncated (dropping it leaves the output
unchanged), never rounded. -/
theorem lap_time_formatting (ns : ℕ) (h : ns < 3600000000000) :
    formatLapTime ns =
      pythonPad 2 (ns / 60000000000) ++ [':'] ++ pythonPad 2 (ns / 1000000000 % 60)
        ++ ['.'] ++ pythonPad 3 (ns / 1000000 % 1000) ∧
    (pythonPad 2 (tdMinutes ns)).length = 2 ∧
    (pythonPad 2 (tdSeconds ns)).length = 2 ∧
    (pythonPad 3 (tdMilliseconds ns)).length = 3 ∧
    formatLapTime ns = formatLapTime (1000000 * (ns / 1000000)) := by
  have hmin : tdMinutes ns = ns / 60000000000 := by
    rw [tdMinutes, Nat.mod_eq_of_lt]
    omega
  have e1 : tdMinutes (1000000 * (ns / 1000000)) = tdMinutes ns := by
    rw [tdMinutes, tdMinutes]
    omega
  have e2 : tdSeconds (1000000 * (ns / 1000000)) = tdSeconds ns := by
    rw [tdSeconds, tdSeconds]
    omega
  have e3 : tdMilliseconds (1000000 * (ns / 1000000)) = tdMilliseconds ns := by
    rw [tdMilliseconds, tdMilliseconds]
    omega
  refine ⟨?_, ?_, ?_, ?_, ?_⟩
  · rw [formatLapTime, hmin, tdSeconds, tdMilliseconds]
  · exact pad2_length _ (by rw [hmin]; omega)
  · exact pad2_length _ (by rw [tdSeconds]; omega)
  · exact pad3_length _ (by rw [tdMilliseconds]; omega)
  · rw [formatLapTime, formatLapTime, e1, e2, e3]

/-- Witness for C9 at the spec's example: 83.456 seconds formats as
01:23.456. -/
theorem lap_time_formatting_witness :
    83456000000 < 3600000000000 ∧
    (formatLapTime 83456000000 =
      pythonPad 2 (83456000000 / 60000000000) ++ [':']
        ++ pythonPad 2 (83456000000 / 1000000000 % 60)
        ++ ['.'] ++ pythonPad 3 (83456000000 / 1000000 % 1000) ∧
      (pythonPad 2 (tdMinutes 83456000000)).length = 2 ∧
      (pythonPad 2 (tdSeconds 83456000000)).length = 2 ∧
      (pythonPad 3 (tdMilliseconds 83456000000)).length = 3 ∧
      formatLapTime 83456000000 = formatLapTime (1000000 * (83456000000 / 1000000))) ∧
    formatLapTimeStr 83456000000 = "01:23.456" :=
  ⟨by decide, lap_time_formatting _ (by decide), by decide⟩

/- ### C4: empty overlap is not rejected (code bug) -/

/-- C4 evidence: for traces with disjoint distance ranges [0, 100] and
[150, 250] (so start = 150 ≥ end = 100), `compare_race_laps` performs no
overlap check: it still builds a full 1000-point grid — now descending from
150 to 100 — and produces a full-length dominance color sequence instead of
rejecting with a no-comparable-overlap condition. -/
theorem degenerate_overlap_not_rejected :
    (commonGrid degenerateTrace1 degenerateTrace2).length = 1000 ∧
    (commonGrid degenerateTrace1 degenerateTrace2)[0]? = some 150 ∧
    (commonGrid degenerateTrace1 degenerateTrace2)[999]? = some 100 ∧
    (trackDominanceColors degenerateTrace1 degenerateTrace2).length = 1000 := by
  have hm1 : seriesMin (distances degenerateTrace1) = some 0 := by decide
  have hm2 : seriesMin (distances degenerateTrace2) = some 150 := by decide
  have hM1 : seriesMax (distances degenerateTrace1) = some 100 := by decide
  have hM2 : seriesMax (distances degenerateTrace2) = some 250 := by decide
  have hg : commonGrid degenerateTrace1 degenerateTrace2 = linspace 150 100 1000 := by
    rw [commonGrid_eq_linspace _ _ hm1 hm2 hM1 hM2]
    norm_num
  refine ⟨?_, ?_, ?_, ?_⟩
  · rw [hg, linspace_length]
  · rw [hg, linspace_getElem? _ _ (by norm_num : (0 : ℕ) < 1000)]
    norm_num
  · rw [hg, linspace_getElem? _ _ (by norm_num : (999 : ℕ) < 1000)]
    norm_num
  · simp only [trackDominanceColors, whereColors, List.length_map, List.length_zipWith, hg,
      linspace_length]
    norm_num

/- ### C6: track-loop segments -/

theorem closeLoop_length (pts : List (ℚ × ℚ)) (h : pts ≠ []) :
    (closeLoop pts).length = pts.length + 1 := by
  obtain ⟨p, rest, rfl⟩ := List.exists_cons_of_ne_nil h
  simp [closeLoop]

/-- C6: closing the loop adds the first point at the end (N+1 positions),
`zip` with the tail yields exactly N segments with segment i connecting
point i to point i+1, and the color list handed to the renderer is the
label list with its last entry dropped: N-1 entries, entry i equal to
label i. -/
theorem segment_building (pts : List (ℚ × ℚ)) (colors : List String)
    (hne : pts ≠ []) (hc : colors.length = pts.length) :
    (closeLoop pts).length = pts.length + 1 ∧
    (segmentsOf (closeLoop pts)).length = pts.length ∧
    (∀ i : ℕ, i < pts.length →
      ∃ a b : ℚ × ℚ, (closeLoop pts)[i]? = some a ∧ (closeLoop pts)[i + 1]? = some b ∧
        (segmentsOf (closeLoop pts))[i]? = some (a, b)) ∧
    (usedColors colors).length = pts.length - 1 ∧
    (∀ i : ℕ, i < pts.length - 1 → (usedColors colors)[i]? = colors[i]?) := by
  have hlen := closeLoop_length pts hne
  refine ⟨hlen, ?_, ?_, ?_, ?_⟩
  · rw [segmentsOf, List.length_zip, List.length_tail, hlen]
    omega
  · intro i hi
    have h1 : i < (closeLoop pts).length := by omega
    have h2 : i + 1 < (closeLoop pts).length := by omega
    refine ⟨(closeLoop pts)[i], (closeLoop pts)[i + 1],
      List.getElem?_eq_getElem h1, List.getElem?_eq_getElem h2, ?_⟩
    rw [segmentsOf, List.zip_eq_zipWith, List.getElem?_zipWith, List.getElem?_tail,
      List.getElem?_eq_getElem h1, List.getElem?_eq_getElem h2]
  · rw [usedColors, List.length_dropLast, hc]
  · intro i hi
    rw [usedColors, List.getElem?_dropLast, if_pos (by omega)]

/-- Witness for C6 on a 3-point path with 3 labels. -/
theorem segment_building_witness :
    ([((0 : ℚ), (0 : ℚ)), (1, 0), (1, 1)] : List (ℚ × ℚ)) ≠ [] ∧
    ([("red"), ("blue"), ("red")] : List String).length =
      ([((0 : ℚ), (0 : ℚ)), (1, 0), (1, 1)] : List (ℚ × ℚ)).length ∧
    ((closeLoop [((0 : ℚ), (0 : ℚ)), (1, 0), (1, 1)]).length =
        ([((0 : ℚ), (0 : ℚ)), (1, 0), (1, 1)] : List (ℚ × ℚ)).length + 1 ∧
      (segmentsOf (closeLoop [((0 : ℚ), (0 : ℚ)), (1, 0), (1, 1)])).length =
        ([((0 : ℚ), (0 : ℚ)), (1, 0), (1, 1)] : List (ℚ × ℚ)).length ∧
      (∀ i : ℕ, i < ([((0 : ℚ), (0 : ℚ)), (1, 0), (1, 1)] : List (ℚ × ℚ)).length →
        ∃ a b : ℚ × ℚ,
          (closeLoop [((0 : ℚ), (0 : ℚ)), (1, 0), (1, 1)])[i]? = some a ∧
          (closeLoop [((0 : ℚ), (0 : ℚ)), (1, 0), (1, 1)])[i + 1]? = some b ∧
          (segmentsOf (closeLoop [((0 : ℚ), (0 : ℚ)), (1, 0), (1, 1)]))[i]? = some (a, b)) ∧
      (usedColors [("red"), ("blue"), ("red")]).length =
        ([((0 : ℚ), (0 : ℚ)), (1, 0), (1, 1)] : List (ℚ × ℚ)).length - 1 ∧
      (∀ i : ℕ, i < ([((0 : ℚ), (0 : ℚ)), (1, 0), (1, 1)] : List (ℚ × ℚ)).length - 1 →
        (usedColors [("red"), ("blue"), ("red")])[i]? =
          ([("red"), ("blue"), ("red")] : List String)[i]?)) :=
  ⟨by decide, by decide, segment_building _ _ (by decide) (by decide)⟩

/- ### C5: deduplication -/

theorem dropDuplicatesAux_sublist :
    ∀ (tr : List TelemetrySample) (seen : List ℚ), (dropDuplicatesAux tr seen).Sublist tr := by
  intro tr
  induction tr with
  | nil =>
    intro seen
    simp [dropDuplicatesAux]
  | cons s rest ih =>
    intro seen
    rw [dropDuplicatesAux]
    split
    · exact (ih seen).cons s
    · exact (ih (s.distance :: seen)).cons₂ s

theorem dropDuplicatesAux_eq_keepFirst :
    ∀ (tr : List TelemetrySample) (seen : List ℚ),
      dropDuplicatesAux tr seen =
        keepFirstOccurrences (tr.filter (fun s => decide (s.distance ∉ seen))) := by
  intro tr
  induction tr with
  | nil =>
    intro seen
    simp [dropDuplicatesAux, keepFirstOccurrences]
  | cons s rest ih =>
    intro seen
    rw [dropDuplicatesAux]
    split
    · next hmem =>
      rw [List.filter_cons, if_neg (by simpa using hmem)]
      exact ih seen
    · next hmem =>
      rw [List.filter_cons, if_pos (by simpa using hmem), keepFirstOccurrences,
        List.filter_filter, ih (s.distance :: seen)]
      congr 2
      refine List.filter_congr ?_
      intro r _
      simp [List.mem_cons, not_or]

theorem mem_keepFirstOccurrences :
    ∀ (n : ℕ) (tr : List TelemetrySample), tr.length ≤ n →
      ∀ x ∈ keepFirstOccurrences tr, x ∈ tr := by
  intro n
  induction n with
  | zero =>
    intro tr htr x hx
    have h0 : tr = [] := List.eq_nil_of_length_eq_zero (Nat.le_zero.1 htr)
    subst h0
    simpa [keepFirstOccurrences] using hx
  | succ n ih =>
    intro tr htr x hx
    cases tr with
    | nil => simpa [keepFirstOccurrences] using hx
    | cons s rest =>
      rw [keepFirstOccurrences] at hx
      rcases List.mem_cons.1 hx with h | h
      · exact h ▸ List.mem_cons_self s rest
      · have hlen : (rest.filter (fun r => decide (r.distance ≠ s.distance))).length ≤ n := by
          have := List.length_filter_le (fun r => decide (r.distance ≠ s.distance)) rest
          simp only [List.length_cons] at htr
          omega
        have hmem := ih _ hlen x h
        exact List.mem_cons_of_mem s (List.mem_filter.1 hmem).1

theorem keepFirstOccurrences_nodup :
    ∀ (n : ℕ) (tr : List TelemetrySample), tr.length ≤ n →
      ((keepFirstOccurrences tr).map (fun s => s.distance)).Nodup := by
  intro n
  induction n with
  | zero =>
    intro tr htr
    have h0 : tr = [] := List.eq_nil_of_length_eq_zero (Nat.le_zero.1 htr)
    subst h0
    simp [keepFirstOccurrences]
  | succ n ih =>
    intro tr htr
    cases tr with
    | nil => simp [keepFirstOccurrences]
    | cons s rest =>
      have hlen : (rest.filter (fun r => decide (r.distance ≠ s.distance))).length ≤ n := by
        have := List.length_filter_le (fun r => decide (r.distance ≠ s.distance)) rest
        simp only [List.length_cons] at htr
        omega
      rw [keepFirstOccurrences, List.map_cons, List.nodup_cons]
      constructor
      · intro hmem
        rcases List.mem_map.1 hmem with ⟨r, hr, hrd⟩
        have hr2 := mem_keepFirstOccurrences n _ hlen r hr
        have := (List.mem_filter.1 hr2).2
        simp only [decide_eq_true_eq] at this
        exact this hrd
      · exact ih _ hlen

/-- C5: `drop_duplicates(subset='Distance')` returns a subsequence of the
trace (relative order preserved) whose distance values are pairwise
distinct, and it equals the keep-first-occurrence selection. -/
theorem deduplication (tr : List TelemetrySample) :
    (dropDuplicates tr).Sublist tr ∧
    ((dropDuplicates tr).map (fun s => s.distance)).Nodup ∧
    dropDuplicates tr = keepFirstOccurrences tr := by
  have he : dropDuplicates tr = keepFirstOccurrences tr := by
    rw [dropDuplicates, dropDuplicatesAux_eq_keepFirst]
    congr 1
    simp
  refine ⟨dropDuplicatesAux_sublist tr [], ?_, he⟩
  rw [he]
  exact keepFirstOccurrences_nodup tr.length tr le_rfl

/- ### C10: corner lookup on the raw trace agrees with the dedup trace -/

theorem idxminLookup_cons (s : TelemetrySample) (rest : List TelemetrySample) (t : ℚ) :
    idxminLookup (s :: rest) t =
      match idxminLookup rest t with
      | none => some s
      | some b => if absQ (b.distance - t) < absQ (s.distance - t) then some b else some s := rfl

theorem idxminLookup_none_iff {rest : List TelemetrySample} {t : ℚ}
    (h : idxminLookup rest t = none) : rest = [] := by
  cases rest with
  | nil => rfl
  | cons s rest =>
    rw [idxminLookup_cons] at h
    cases hr : idxminLookup rest t <;> simp only [hr] at h
    · exact absurd h (by simp)
    · split at h <;> exact absurd h (by simp)

theorem idxminLookup_mem :
    ∀ (tr : List TelemetrySample) (t : ℚ) (b : TelemetrySample),
      idxminLookup tr t = some b → b ∈ tr := by
  intro tr
  induction tr with
  | nil =>
    intro t b h
    exact absurd h (by simp [idxminLookup])
  | cons s rest ih =>
    intro t b h
    rw [idxminLookup_cons] at h
    rcases hc : idxminLookup rest t with _ | c <;> simp only [hc] at h
    · simp only [Option.some.injEq] at h
      subst h
      exact List.mem_cons_self s rest
    · split at h <;> simp only [Option.some.injEq] at h <;> subst h
      · exact List.mem_cons_of_mem s (ih t _ hc)
      · exact List.mem_cons_self s rest

theorem idxminLookup_min :
    ∀ (tr : List TelemetrySample) (t : ℚ) (b : TelemetrySample),
      idxminLookup tr t = some b →
      ∀ r ∈ tr, absQ (b.distance - t) ≤ absQ (r.distance - t) := by
  intro tr
  induction tr with
  | nil =>
    intro t b h
    exact absurd h (by simp [idxminLookup])
  | cons s rest ih =>
    intro t b h r hr
    rw [idxminLookup_cons] at h
    rcases hc : idxminLookup rest t with _ | c <;> simp only [hc] at h
    · have hrest := idxminLookup_none_iff hc
      subst hrest
      simp only [Option.some.injEq] at h
      subst h
      rcases List.mem_cons.1 hr with h | h
      · exact h ▸ le_refl _
      · exact absurd h (by simp)
    · split at h
      · next hlt =>
        simp only [Option.some.injEq] at h
        subst h
        rcases List.mem_cons.1 hr with h | h
        · exact h ▸ le_of_lt hlt
        · exact ih t _ hc r h
      · next hnlt =>
        simp only [Option.some.injEq] at h
        subst h
        rcases List.mem_cons.1 hr with h | h
        · exact h ▸ le_refl _
        · exact le_trans (not_lt.1 hnlt) (ih t _ hc r h)

theorem idxminLookup_filter :
    ∀ (tr : List TelemetrySample) (t : ℚ) (p : TelemetrySample → Bool) (b : TelemetrySample),
      idxminLookup tr t = some b → p b = true →
      (∀ r ∈ tr, p r = false → absQ (b.distance - t) < absQ (r.distance - t)) →
      idxminLookup (tr.filter p) t = some b := by
  intro tr
  induction tr with
  | nil =>
    intro t p b h
    exact absurd h (by simp [idxminLookup])
  | cons s rest ih =>
    intro t p b h hpb hdrop
    rw [idxminLookup_cons] at h
    rcases hc : idxminLookup rest t with _ | c <;> simp only [hc] at h
    · have hrest := idxminLookup_none_iff hc
      subst hrest
      simp only [Option.some.injEq] at h
      subst h
      simp [List.filter_cons, hpb, idxminLookup]
    · split at h
      · next hlt =>
        simp only [Option.some.injEq] at h
        subst h
        have hfr : idxminLookup (rest.filter p) t = some c :=
          ih t p c hc hpb (fun r hr hpr => hdrop r (List.mem_cons_of_mem s hr) hpr)
        by_cases hps : p s = true
        · rw [List.filter_cons, if_pos hps, idxminLookup_cons]
          simp only [hfr]
          rw [if_pos hlt]
        · rw [List.filter_cons, if_neg hps, hfr]
      · next hnlt =>
        simp only [Option.some.injEq] at h
        subst h
        rw [List.filter_cons, if_pos hpb, idxminLookup_cons]
        rcases hfr : idxminLookup (rest.filter p) t with _ | d <;> simp only [hfr]
        have hd_mem : d ∈ rest.filter p := idxminLookup_mem _ t d hfr
        have hd_rest : d ∈ rest := (List.mem_filter.1 hd_mem).1
        have h1 : absQ (c.distance - t) ≤ absQ (d.distance - t) := idxminLookup_min rest t c hc d hd_rest
        rw [if_neg]
        push_neg
        exact le_trans (not_lt.1 hnlt) h1

theorem idxminLookup_keepFirst :
    ∀ (n : ℕ) (tr : List TelemetrySample), tr.length ≤ n → ∀ t : ℚ,
      idxminLookup (keepFirstOccurrences tr) t = idxminLookup tr t := by
  intro n
  induction n with
  | zero =>
    intro tr htr t
    have h0 : tr = [] := List.eq_nil_of_length_eq_zero (Nat.le_zero.1 htr)
    subst h0
    rw [keepFirstOccurrences]
  | succ n ih =>
    intro tr htr t
    cases tr with
    | nil => rw [keepFirstOccurrences]
    | cons s rest =>
      have hlen : (rest.filter (fun r => decide (r.distance ≠ s.distance))).length ≤ n := by
        have := List.length_filter_le (fun r => decide (r.distance ≠ s.distance)) rest
        simp only [List.length_cons] at htr
        omega
      rw [keepFirstOccurrences]
      rcases hc : idxminLookup rest t with _ | c
      · have hrest := idxminLookup_none_iff hc
        subst hrest
        simp [keepFirstOccurrences]
      · simp only [idxminLookup_cons, hc]
        by_cases hlt : absQ (c.distance - t) < absQ (s.distance - t)
        · have hpc : (fun r => decide (r.distance ≠ s.distance)) c = true := by
            simp only [decide_eq_true_eq]
            intro hcd
            rw [hcd] at hlt
            exact lt_irrefl _ hlt
          have hfc : idxminLookup (rest.filter (fun r => decide (r.distance ≠ s.distance))) t
              = some c := by
            refine idxminLookup_filter rest t _ c hc hpc ?_
            intro r hr hpr
            have hrd : r.distance = s.distance := by simpa using hpr
            rw [hrd]
            exact hlt
          rw [ih _ hlen t]
          simp only [hfc]
        · rcases hf : idxminLookup
              (keepFirstOccurrences (rest.filter (fun r => decide (r.distance ≠ s.distance)))) t
              with _ | d <;> simp only [hf]
          · rw [if_neg hlt]
          · have hd1 := idxminLookup_mem _ t d hf
            have hd2 := mem_keepFirstOccurrences n _ hlen d hd1
            have hd3 : d ∈ rest := (List.mem_filter.1 hd2).1
            have h1 : absQ (c.distance - t) ≤ absQ (d.distance - t) := idxminLookup_min rest t c hc d hd3
            have h2 : ¬ absQ (d.distance - t) < absQ (s.distance - t) := by
              push_neg at hlt ⊢
              exact le_trans hlt h1
            rw [if_neg h2, if_neg hlt]

/-- C10: the first-index-of-minimum nearest lookup used for corner
placement selects the same row on the raw trace as on the deduplicated
trace: both resolve duplicate distances and exact ties to the earliest
row. -/
theorem corner_lookup_dedup_agree (tr : List TelemetrySample) (t : ℚ)
    (hs : (distances tr).Pairwise (· ≤ ·)) :
    idxminLookup tr t = idxminLookup (dropDuplicates tr) t := by
  rw [dropDuplicates, dropDuplicatesAux_eq_keepFirst]
  have hfil : tr.filter (fun s => decide (s.distance ∉ ([] : List ℚ))) = tr := by simp
  rw [hfil, idxminLookup_keepFirst tr.length tr le_rfl t]

/-- Witness for C10 on a sorted trace with duplicated distance 10 and a
target 15 equidistant from 10 and 20: both lookups return the first row at
distance 10. -/
theorem corner_lookup_dedup_agree_witness :
    (distances [⟨0, 0, 0, 1⟩, ⟨10, 1, 1, 1⟩, ⟨10, 2, 2, 2⟩, ⟨20, 3, 3, 3⟩]).Pairwise (· ≤ ·) ∧
    idxminLookup [⟨0, 0, 0, 1⟩, ⟨10, 1, 1, 1⟩, ⟨10, 2, 2, 2⟩, ⟨20, 3, 3, 3⟩] 15 =
      idxminLookup (dropDuplicates [⟨0, 0, 0, 1⟩, ⟨10, 1, 1, 1⟩, ⟨10, 2, 2, 2⟩, ⟨20, 3, 3, 3⟩]) 15 ∧
    idxminLookup [⟨0, 0, 0, 1⟩, ⟨10, 1, 1, 1⟩, ⟨10, 2, 2, 2⟩, ⟨20, 3, 3, 3⟩] 15 =
      some ⟨10, 1, 1, 1⟩ :=
  ⟨by decide, corner_lookup_dedup_agree _ _ (by decide),
    by norm_num [idxminLookup, absQ]⟩

/- ### C3 and C7: the reindex-nearest resampler -/

theorem absQ_nonneg (x : ℚ) : 0 ≤ absQ x := by
  rw [absQ]
  split <;> linarith

theorem absQ_of_nonneg {x : ℚ} (h : 0 ≤ x) : absQ x = x := by
  rw [absQ, if_neg (not_lt.2 h)]

theorem absQ_of_nonpos {x : ℚ} (h : x ≤ 0) : absQ x = -x := by
  rw [absQ]
  split
  · rfl
  · next h2 =>
    have hx : x = 0 := le_antisymm h (not_lt.1 h2)
    rw [hx, neg_zero]

/-- In a strictly sorted list the values `≤ t` form a prefix, so position
`j` holds a value `≤ t` exactly when `j` is below the count of such values
(this is `searchsorted(t, 'right')`). -/
theorem sorted_le_count (t : ℚ) :
    ∀ ds : List ℚ, ds.Pairwise (· < ·) →
      ∀ (j : ℕ) (hj : j < ds.length),
        (ds.get ⟨j, hj⟩ ≤ t ↔ j < ds.countP (fun d => decide (d ≤ t))) := by
  intro ds
  induction ds with
  | nil =>
    intro _ j hj
    exact absurd hj (by simp)
  | cons d ds ih =>
    intro hp j hj
    have hall : ∀ x ∈ ds, d < x := (List.pairwise_cons.1 hp).1
    have hds : ds.Pairwise (· < ·) := (List.pairwise_cons.1 hp).2
    rw [List.countP_cons]
    by_cases hd : d ≤ t
    · rw [if_pos (by simpa using hd)]
      cases j with
      | zero =>
        show d ≤ t ↔ 0 < ds.countP (fun d => decide (d ≤ t)) + 1
        exact ⟨fun _ => by omega, fun _ => hd⟩
      | succ j =>
        have hj2 : j < ds.length := by
          simp only [List.length_cons] at hj
          omega
        rw [List.get_cons_succ, ih hds j hj2]
        omega
    · have hc0 : ds.countP (fun d => decide (d ≤ t)) = 0 := by
        rw [List.countP_eq_zero]
        intro x hx
        simp only [decide_eq_true_eq]
        intro hxle
        exact hd (le_trans (le_of_lt (hall x hx)) hxle)
      rw [if_neg (by simpa using hd), hc0]
      cases j with
      | zero =>
        show d ≤ t ↔ 0 < 0 + 0
        exact ⟨fun hzt => absurd hzt hd, fun hz => absurd hz (by omega)⟩
      | succ j =>
        have hj2 : j < ds.length := by
          simp only [List.length_cons] at hj
          omega
        rw [List.get_cons_succ]
        constructor
        · intro hle
          exact absurd hle
            (not_le.2 (lt_trans (not_le.1 hd) (hall _ (List.get_mem ds j hj2))))
        · intro hz
          exact absurd hz (by omega)

/-- Companion to `sorted_le_count` for strict comparison
(`searchsorted(t, 'left')`). -/
theorem sorted_lt_count (t : ℚ) :
    ∀ ds : List ℚ, ds.Pairwise (· < ·) →
      ∀ (j : ℕ) (hj : j < ds.length),
        (ds.get ⟨j, hj⟩ < t ↔ j < ds.countP (fun d => decide (d < t))) := by
  intro ds
  induction ds with
  | nil =>
    intro _ j hj
    exact absurd hj (by simp)
  | cons d ds ih =>
    intro hp j hj
    have hall : ∀ x ∈ ds, d < x := (List.pairwise_cons.1 hp).1
    have hds : ds.Pairwise (· < ·) := (List.pairwise_cons.1 hp).2
    rw [List.countP_cons]
    by_cases hd : d < t
    · rw [if_pos (by simpa using hd)]
      cases j with
      | zero =>
        show d < t ↔ 0 < ds.countP (fun d => decide (d < t)) + 1
        exact ⟨fun _ => by omega, fun _ => hd⟩
      | succ j =>
        have hj2 : j < ds.length := by
          simp only [List.length_cons] at hj
          omega
        rw [List.get_cons_succ, ih hds j hj2]
        omega
    · have hc0 : ds.countP (fun d => decide (d < t)) = 0 := by
        rw [List.countP_eq_zero]
        intro x hx
        simp only [decide_eq_true_eq]
        intro hxlt
        exact hd (lt_trans (hall x hx) hxlt)
      rw [if_neg (by simpa using hd), hc0]
      cases j with
      | zero =>
        show d < t ↔ 0 < 0 + 0
        exact ⟨fun hzt => absurd hzt hd, fun hz => absurd hz (by omega)⟩
      | succ j =>
        have hj2 : j < ds.length := by
          simp only [List.length_cons] at hj
          omega
        rw [List.get_cons_succ]
        constructor
        · intro hlt
          exact absurd hlt
            (by
              push_neg
              exact le_trans (not_lt.1 hd) (le_of_lt (hall _ (List.get_mem ds j hj2))))
        · intro hz
          exact absurd hz (by omega)

theorem getD_eq_get (ds : List ℚ) (i : ℕ) (hi : i < ds.length) :
    ds.getD i 0 = ds.get ⟨i, hi⟩ := by
  rw [List.getD_eq_getElem?_getD, List.getElem?_eq_getElem hi]
  rfl

/-- Full characterization of pandas nearest reindexing on a sorted unique
index: the selected position minimizes the absolute difference to the
target, and among equally close positions it is the last (largest) one. -/
theorem nearestIndexer_spec (ds : List ℚ) (t : ℚ) (hne : ds ≠ [])
    (hs : ds.Pairwise (· < ·)) :
    ∃ (i : ℕ) (hi : i < ds.length), nearestIndexer ds t = some i ∧
      (∀ (j : ℕ) (hj : j < ds.length),
        absQ (ds.get ⟨i, hi⟩ - t) ≤ absQ (ds.get ⟨j, hj⟩ - t)) ∧
      (∀ (j : ℕ) (hj : j < ds.length),
        absQ (ds.get ⟨j, hj⟩ - t) = absQ (ds.get ⟨i, hi⟩ - t) → j ≤ i) := by
  have hlen : 0 < ds.length := List.length_pos.2 hne
  have hmono : ∀ (a b : ℕ) (ha : a < ds.length) (hb : b < ds.length), a < b →
      ds.get ⟨a, ha⟩ < ds.get ⟨b, hb⟩ := by
    intro a b ha hb hab
    exact List.pairwise_iff_get.1 hs ⟨a, ha⟩ ⟨b, hb⟩ hab
  have hmono_le : ∀ (a b : ℕ) (ha : a < ds.length) (hb : b < ds.length), a ≤ b →
      ds.get ⟨a, ha⟩ ≤ ds.get ⟨b, hb⟩ := by
    intro a b ha hb hab
    rcases Nat.lt_or_ge a b with h | h
    · exact le_of_lt (hmono a b ha hb h)
    · have hab2 : a = b := le_antisymm hab h
      subst hab2
      exact le_refl _
  have hLE := sorted_le_count t ds hs
  have hLT := sorted_lt_count t ds hs
  have hkle : ds.countP (fun d => decide (d ≤ t)) ≤ ds.length := List.countP_le_length _
  have hk1le : ds.countP (fun d => decide (d < t)) ≤ ds.length := List.countP_le_length _
  have hk1k : ds.countP (fun d => decide (d < t)) ≤ ds.countP (fun d => decide (d ≤ t)) := by
    apply List.countP_mono_left
    intro x _ hx
    simp only [decide_eq_true_eq] at hx ⊢
    exact le_of_lt hx
  have hkk1 : ds.countP (fun d => decide (d ≤ t)) ≤ ds.countP (fun d => decide (d < t)) + 1 := by
    by_contra hcon
    push_neg at hcon
    have h1 : ds.countP (fun d => decide (d < t)) < ds.length := by omega
    have h2 : ds.countP (fun d => decide (d < t)) + 1 < ds.length := by omega
    have e1 : ds.get ⟨_, h1⟩ ≤ t := (hLE _ h1).2 (by omega)
    have e2 : ds.get ⟨_, h2⟩ ≤ t := (hLE _ h2).2 (by omega)
    have e3 : ¬ ds.get ⟨_, h1⟩ < t := fun hx => by
      have := (hLT _ h1).1 hx
      omega
    have e4 : ¬ ds.get ⟨_, h2⟩ < t := fun hx => by
      have := (hLT _ h2).1 hx
      omega
    have e5 := hmono _ _ h1 h2 (by omega)
    have e6 : ds.get ⟨_, h1⟩ = t := le_antisymm e1 (not_lt.1 e3)
    have e7 : ds.get ⟨_, h2⟩ = t := le_antisymm e2 (not_lt.1 e4)
    rw [e6, e7] at e5
    exact lt_irrefl t e5
  rcases Nat.eq_zero_or_pos (ds.countP (fun d => decide (d ≤ t))) with hk0 | hkpos
  · -- every value exceeds t: backfill picks position 0
    have hk10 : ds.countP (fun d => decide (d < t)) = 0 := by omega
    have hpadeq : padIndexer ds t = none := by
      rw [padIndexer, hk0]
    have hbackeq : backfillIndexer ds t = some 0 := by
      rw [backfillIndexer, hk10, if_neg (by omega)]
    have hnear : nearestIndexer ds t = some 0 := by
      rw [nearestIndexer, hpadeq, hbackeq]
    refine ⟨0, hlen, hnear, ?_, ?_⟩
    · intro j hj
      have hjt : t < ds.get ⟨j, hj⟩ := by
        by_contra hle
        have := (hLE j hj).1 (not_lt.1 hle)
        omega
      have h0t : t < ds.get ⟨0, hlen⟩ := by
        by_contra hle
        have := (hLE 0 hlen).1 (not_lt.1 hle)
        omega
      have hle0 : ds.get ⟨0, hlen⟩ ≤ ds.get ⟨j, hj⟩ := hmono_le 0 j hlen hj (Nat.zero_le j)
      rw [absQ_of_nonneg (by linarith), absQ_of_nonneg (by linarith)]
      linarith
    · intro j hj heq
      by_contra hcon
      push_neg at hcon
      have h0t : t < ds.get ⟨0, hlen⟩ := by
        by_contra hle
        have := (hLE 0 hlen).1 (not_lt.1 hle)
        omega
      have hjt : t < ds.get ⟨j, hj⟩ := by
        by_contra hle
        have := (hLE j hj).1 (not_lt.1 hle)
        omega
      have := hmono 0 j hlen hj (by omega)
      rw [absQ_of_nonneg (by linarith), absQ_of_nonneg (by linarith)] at heq
      linarith
  · obtain ⟨n, hn⟩ : ∃ n, ds.countP (fun d => decide (d ≤ t)) = n + 1 :=
      ⟨ds.countP (fun d => decide (d ≤ t)) - 1, by omega⟩
    have hpadn : padIndexer ds t = some n := by
      rw [padIndexer, hn]
    by_cases hblen : ds.countP (fun d => decide (d < t)) = ds.length
    · -- every value is below t: pad picks the last position
      have hklen : ds.countP (fun d => decide (d ≤ t)) = ds.length := by omega
      have hi : n < ds.length := by omega
      have hbackeq : backfillIndexer ds t = none := by
        rw [backfillIndexer, if_pos hblen]
      have hnear : nearestIndexer ds t = some n := by
        rw [nearestIndexer, hpadn, hbackeq]
      refine ⟨n, hi, hnear, ?_, ?_⟩
      · intro j hj
        have hjt : ds.get ⟨j, hj⟩ < t := (hLT j hj).2 (by omega)
        have hnt : ds.get ⟨n, hi⟩ < t := (hLT n hi).2 (by omega)
        have hle : ds.get ⟨j, hj⟩ ≤ ds.get ⟨n, hi⟩ := hmono_le j n hj hi (by omega)
        rw [absQ_of_nonpos (by linarith), absQ_of_nonpos (by linarith)]
        linarith
      · intro j hj _
        omega
    · have hb : backfillIndexer ds t = some (ds.countP (fun d => decide (d < t))) := by
        rw [backfillIndexer, if_neg hblen]
      have hk1lt : ds.countP (fun d => decide (d < t)) < ds.length := by omega
      rcases (by omega : ds.countP (fun d => decide (d < t)) = n ∨
          ds.countP (fun d => decide (d < t)) = n + 1) with he | he
      · -- the value at position n equals t exactly
        have hi : n < ds.length := by omega
        have hget_le : ds.get ⟨n, hi⟩ ≤ t := (hLE n hi).2 (by omega)
        have hget_ge : ¬ ds.get ⟨n, hi⟩ < t := fun hx => by
          have := (hLT n hi).1 hx
          omega
        have hgt : ds.get ⟨n, hi⟩ = t := le_antisymm hget_le (not_lt.1 hget_ge)
        have hnear : nearestIndexer ds t = some n := by
          rw [nearestIndexer, hpadn, hb, he]
          show (if absQ (ds.getD n 0 - t) < absQ (ds.getD n 0 - t)
            then some n else some n) = some n
          rw [if_neg (lt_irrefl _)]
        have habs0 : absQ (ds.get ⟨n, hi⟩ - t) = 0 := by
          rw [hgt, sub_self, absQ_of_nonneg (le_refl 0)]
        refine ⟨n, hi, hnear, ?_, ?_⟩
        · intro j hj
          rw [habs0]
          exact absQ_nonneg _
        · intro j hj heq
          rw [habs0] at heq
          have hj0 : ds.get ⟨j, hj⟩ - t = 0 := by
            by_contra hne0
            rcases lt_or_gt_of_ne hne0 with hx | hx
            · rw [absQ_of_nonpos (le_of_lt hx)] at heq
              linarith
            · rw [absQ_of_nonneg (le_of_lt hx)] at heq
              linarith
          by_contra hcon
          push_neg at hcon
          have := hmono n j hi hj (by omega)
          rw [hgt] at this
          have : ds.get ⟨j, hj⟩ = t := by linarith
          linarith [this ▸ hj0]
      · -- the target lies strictly between positions n and n+1
        have hi1 : n + 1 < ds.length := by omega
        have hi0 : n < ds.length := by omega
        have hlt_n : ds.get ⟨n, hi0⟩ < t := (hLT n hi0).2 (by omega)
        have hge_r : ¬ ds.get ⟨n + 1, hi1⟩ < t := fun hx => by
          have := (hLT (n + 1) hi1).1 hx
          omega
        have hge_r2 : t ≤ ds.get ⟨n + 1, hi1⟩ := not_lt.1 hge_r
        have hgd0 : ds.getD n 0 = ds.get ⟨n, hi0⟩ := getD_eq_get ds n hi0
        have hgd1 : ds.getD (n + 1) 0 = ds.get ⟨n + 1, hi1⟩ := getD_eq_get ds (n + 1) hi1
        have habsl : absQ (ds.get ⟨n, hi0⟩ - t) = t - ds.get ⟨n, hi0⟩ := by
          rw [absQ_of_nonpos (by linarith)]
          ring
        have habsr : absQ (ds.get ⟨n + 1, hi1⟩ - t) = ds.get ⟨n + 1, hi1⟩ - t :=
          absQ_of_nonneg (by linarith)
        by_cases hcmp : absQ (ds.getD n 0 - t) < absQ (ds.getD (n + 1) 0 - t)
        · -- the left neighbor is strictly closer
          have hnear : nearestIndexer ds t = some n := by
            rw [nearestIndexer, hpadn, hb, he]
            show (if absQ (ds.getD n 0 - t) < absQ (ds.getD (n + 1) 0 - t)
              then some n else some (n + 1)) = some n
            rw [if_pos hcmp]
          have hcmp2 : t - ds.get ⟨n, hi0⟩ < ds.get ⟨n + 1, hi1⟩ - t := by
            rw [hgd0, hgd1, habsl, habsr] at hcmp
            exact hcmp
          refine ⟨n, hi0, hnear, ?_, ?_⟩
          · intro j hj
            rcases Nat.lt_or_ge j (n + 1) with hjn | hjn
            · have hjlt : ds.get ⟨j, hj⟩ < t := (hLT j hj).2 (by omega)
              have hjle : ds.get ⟨j, hj⟩ ≤ ds.get ⟨n, hi0⟩ := hmono_le j n hj hi0 (by omega)
              rw [habsl, absQ_of_nonpos (by linarith)]
              linarith
            · have hjge : ds.get ⟨n + 1, hi1⟩ ≤ ds.get ⟨j, hj⟩ := hmono_le (n + 1) j hi1 hj hjn
              rw [habsl, absQ_of_nonneg (by linarith)]
              linarith
          · intro j hj heq
            by_contra hcon
            push_neg at hcon
            have hjge : ds.get ⟨n + 1, hi1⟩ ≤ ds.get ⟨j, hj⟩ :=
              hmono_le (n + 1) j hi1 hj (by omega)
            rw [habsl, absQ_of_nonneg (by linarith)] at heq
            linarith
        · -- tie or right neighbor closer: the right neighbor is chosen
          have hnear : nearestIndexer ds t = some (n + 1) := by
            rw [nearestIndexer, hpadn, hb, he]
            show (if absQ (ds.getD n 0 - t) < absQ (ds.getD (n + 1) 0 - t)
              then some n else some (n + 1)) = some (n + 1)
            rw [if_neg hcmp]
          have hcmp2 : ds.get ⟨n + 1, hi1⟩ - t ≤ t - ds.get ⟨n, hi0⟩ := by
            rw [hgd0, hgd1, habsl, habsr] at hcmp
            linarith [not_lt.1 hcmp]
          refine ⟨n + 1, hi1, hnear, ?_, ?_⟩
          · intro j hj
            rcases Nat.lt_or_ge j (n + 1) with hjn | hjn
            · have hjlt : ds.get ⟨j, hj⟩ < t := (hLT j hj).2 (by omega)
              have hjle : ds.get ⟨j, hj⟩ ≤ ds.get ⟨n, hi0⟩ := hmono_le j n hj hi0 (by omega)
              rw [habsr, absQ_of_nonpos (by linarith)]
              linarith
            · have hjge : ds.get ⟨n + 1, hi1⟩ ≤ ds.get ⟨j, hj⟩ := hmono_le (n + 1) j hi1 hj hjn
              rw [habsr, absQ_of_nonneg (by linarith)]
              linarith
          · intro j hj heq
            by_contra hcon
            push_neg at hcon
            have hjgt : ds.get ⟨n + 1, hi1⟩ < ds.get ⟨j, hj⟩ :=
              hmono (n + 1) j hi1 hj (by omega)
            rw [habsr, absQ_of_nonneg (by linarith)] at heq
            linarith

/-- Lift of `nearestIndexer_spec` to trace rows through `reindexNearest`. -/
theorem reindexNearest_spec (tr : List TelemetrySample) (t : ℚ) (hne : tr ≠ [])
    (hs : (distances tr).Pairwise (· < ·)) :
    ∃ (i : ℕ) (hi : i < tr.length), reindexNearest tr t = some (tr.get ⟨i, hi⟩) ∧
      (∀ (j : ℕ) (hj : j < tr.length),
        absQ ((tr.get ⟨i, hi⟩).distance - t) ≤ absQ ((tr.get ⟨j, hj⟩).distance - t)) ∧
      (∀ (j : ℕ) (hj : j < tr.length),
        absQ ((tr.get ⟨j, hj⟩).distance - t) = absQ ((tr.get ⟨i, hi⟩).distance - t) →
          j ≤ i) := by
  have hlen : (distances tr).length = tr.length := by
    rw [distances, List.length_map]
  have hget : ∀ (j : ℕ) (hjd : j < (distances tr).length) (hj : j < tr.length),
      (distances tr).get ⟨j, hjd⟩ = (tr.get ⟨j, hj⟩).distance := by
    intro j hjd hj
    simp [distances]
  obtain ⟨i, hi, hni, hmin, htie⟩ :=
    nearestIndexer_spec (distances tr) t (distances_ne_nil hne) hs
  have hi2 : i < tr.length := by omega
  refine ⟨i, hi2, ?_, ?_, ?_⟩
  · rw [reindexNearest, hni]
    show tr[i]? = some (tr.get ⟨i, hi2⟩)
    rw [List.getElem?_eq_getElem hi2]
    rfl
  · intro j hj
    have hjd : j < (distances tr).length := by omega
    have h1 := hmin j hjd
    rw [hget i hi hi2, hget j hjd hj] at h1
    exact h1
  · intro j hj heq
    have hjd : j < (distances tr).length := by omega
    refine htie j hjd ?_
    rw [hget i hi hi2, hget j hjd hj]
    exact heq

/-- C3 counterexample: the deduplicated sorted trace with distances 0 and
10 queried at target 5 is an exact tie; the reindex-based resampler
returns the sample at distance 10 (the higher index), not the
first-encountered sample at distance 0 required by the claim. -/
theorem nearest_resampling_counterexample :
    reindexNearest [⟨0, 0, 0, 300⟩, ⟨10, 1, 1, 200⟩] 5 = some ⟨10, 1, 1, 200⟩ ∧
    reindexNearest [⟨0, 0, 0, 300⟩, ⟨10, 1, 1, 200⟩] 5 ≠ some ⟨0, 0, 0, 300⟩ := by
  have h : reindexNearest [⟨0, 0, 0, 300⟩, ⟨10, 1, 1, 200⟩] 5 = some ⟨10, 1, 1, 200⟩ := by
    norm_num [reindexNearest, nearestIndexer, padIndexer, backfillIndexer, distances, absQ,
      List.countP_cons, List.countP_nil]
  refine ⟨h, ?_⟩
  rw [h]
  decide

/-- C3 (amended): for every non-empty deduplicated trace with strictly
increasing distances and every target, the resampler returns the sample
whose recorded distance minimizes the absolute difference to the target;
a tie between two equally close samples is broken in favor of the later
(highest-index) sample, not the first-encountered one. -/
theorem nearest_resampling (tr : List TelemetrySample) (t : ℚ) (hne : tr ≠ [])
    (hs : (distances tr).Pairwise (· < ·)) :
    ∃ (i : ℕ) (hi : i < tr.length), reindexNearest tr t = some (tr.get ⟨i, hi⟩) ∧
      (∀ (j : ℕ) (hj : j < tr.length),
        |(tr.get ⟨i, hi⟩).distance - t| ≤ |(tr.get ⟨j, hj⟩).distance - t|) ∧
      (∀ (j : ℕ) (hj : j < tr.length),
        |(tr.get ⟨j, hj⟩).distance - t| = |(tr.get ⟨i, hi⟩).distance - t| → j ≤ i) := by
  obtain ⟨i, hi, hni, hmin, htie⟩ := reindexNearest_spec tr t hne hs
  refine ⟨i, hi, hni, ?_, ?_⟩
  · intro j hj
    have h1 := hmin j hj
    rwa [absQ_eq_abs, absQ_eq_abs] at h1
  · intro j hj heq
    refine htie j hj ?_
    rwa [absQ_eq_abs, absQ_eq_abs]

/-- Witness for C3 at the spec's example: sorted distances 0, 10, 20, 30
and target 12 select the sample at distance 10. -/
theorem nearest_resampling_witness :
    ([⟨0, 0, 0, 1⟩, ⟨10, 1, 1, 2⟩, ⟨20, 2, 2, 3⟩, ⟨30, 3, 3, 4⟩] : List TelemetrySample) ≠ [] ∧
    (distances [⟨0, 0, 0, 1⟩, ⟨10, 1, 1, 2⟩, ⟨20, 2, 2, 3⟩, ⟨30, 3, 3, 4⟩]).Pairwise (· < ·) ∧
    (∃ (i : ℕ) (hi : i <
        ([⟨0, 0, 0, 1⟩, ⟨10, 1, 1, 2⟩, ⟨20, 2, 2, 3⟩, ⟨30, 3, 3, 4⟩] :
          List TelemetrySample).length),
      reindexNearest [⟨0, 0, 0, 1⟩, ⟨10, 1, 1, 2⟩, ⟨20, 2, 2, 3⟩, ⟨30, 3, 3, 4⟩] 12 =
        some (([⟨0, 0, 0, 1⟩, ⟨10, 1, 1, 2⟩, ⟨20, 2, 2, 3⟩, ⟨30, 3, 3, 4⟩] :
          List TelemetrySample).get ⟨i, hi⟩) ∧
      (∀ (j : ℕ) (hj : j <
          ([⟨0, 0, 0, 1⟩, ⟨10, 1, 1, 2⟩, ⟨20, 2, 2, 3⟩, ⟨30, 3, 3, 4⟩] :
            List TelemetrySample).length),
        |(([⟨0, 0, 0, 1⟩, ⟨10, 1, 1, 2⟩, ⟨20, 2, 2, 3⟩, ⟨30, 3, 3, 4⟩] :
            List TelemetrySample).get ⟨i, hi⟩).distance - 12| ≤
          |(([⟨0, 0, 0, 1⟩, ⟨10, 1, 1, 2⟩, ⟨20, 2, 2, 3⟩, ⟨30, 3, 3, 4⟩] :
            List TelemetrySample).get ⟨j, hj⟩).distance - 12|) ∧
      (∀ (j : ℕ) (hj : j <
          ([⟨0, 0, 0, 1⟩, ⟨10, 1, 1, 2⟩, ⟨20, 2, 2, 3⟩, ⟨30, 3, 3, 4⟩] :
            List TelemetrySample).length),
        |(([⟨0, 0, 0, 1⟩, ⟨10, 1, 1, 2⟩, ⟨20, 2, 2, 3⟩, ⟨30, 3, 3, 4⟩] :
            List TelemetrySample).get ⟨j, hj⟩).distance - 12| =
          |(([⟨0, 0, 0, 1⟩, ⟨10, 1, 1, 2⟩, ⟨20, 2, 2, 3⟩, ⟨30, 3, 3, 4⟩] :
            List TelemetrySample).get ⟨i, hi⟩).distance - 12| → j ≤ i)) ∧
    reindexNearest [⟨0, 0, 0, 1⟩, ⟨10, 1, 1, 2⟩, ⟨20, 2, 2, 3⟩, ⟨30, 3, 3, 4⟩] 12 =
      some ⟨10, 1, 1, 2⟩ :=
  ⟨by decide, by decide, nearest_resampling _ _ (by decide) (by decide),
    by norm_num [reindexNearest, nearestIndexer, padIndexer, backfillIndexer, distances, absQ,
      List.countP_cons, List.countP_nil]⟩

/-- C7 counterexample: for the trace with distances 0 and 10, whose
distances lie entirely below the target 100, the lookup does not fail with
an out-of-range condition: it returns the nearest endpoint sample. -/
theorem nearest_error_conditions_counterexample :
    reindexNearest [⟨0, 0, 0, 300⟩, ⟨10, 1, 1, 280⟩] 100 = some ⟨10, 1, 1, 280⟩ := by
  norm_num [reindexNearest, nearestIndexer, padIndexer, backfillIndexer, distances, absQ,
    List.countP_cons, List.countP_nil]

/-- C7 (amended): the reindex-based nearest lookup never raises: for every
non-empty (deduplicated, strictly increasing) trace and every target,
including targets with every trace distance on one side, it returns a
sample of the trace minimizing the absolute distance difference; for an
empty trace it yields a missing row (pandas NaN fill) rather than an
"empty trace" error. -/
theorem nearest_error_conditions (tr : List TelemetrySample) (t : ℚ) (hne : tr ≠ [])
    (hs : (distances tr).Pairwise (· < ·)) :
    (∃ s, reindexNearest tr t = some s ∧ s ∈ tr ∧
      ∀ r ∈ tr, |s.distance - t| ≤ |r.distance - t|) ∧
    reindexNearest [] t = none := by
  constructor
  · obtain ⟨i, hi, hni, hmin, _⟩ := reindexNearest_spec tr t hne hs
    refine ⟨tr.get ⟨i, hi⟩, hni, List.get_mem tr i hi, ?_⟩
    intro r hr
    obtain ⟨⟨j, hj⟩, rfl⟩ := List.mem_iff_get.1 hr
    have h1 := hmin j hj
    rwa [absQ_eq_abs, absQ_eq_abs] at h1
  · rfl

/-- Witness for C7: a trace with distances 0 and 20 queried at 100 (both
distances on one side of the target). -/
theorem nearest_error_conditions_witness :
    ([⟨0, 0, 0, 300⟩, ⟨20, 1, 1, 280⟩] : List TelemetrySample) ≠ [] ∧
    (distances [⟨0, 0, 0, 300⟩, ⟨20, 1, 1, 280⟩]).Pairwise (· < ·) ∧
    ((∃ s, reindexNearest [⟨0, 0, 0, 300⟩, ⟨20, 1, 1, 280⟩] 100 = some s ∧
        s ∈ ([⟨0, 0, 0, 300⟩, ⟨20, 1, 1, 280⟩] : List TelemetrySample) ∧
        ∀ r ∈ ([⟨0, 0, 0, 300⟩, ⟨20, 1, 1, 280⟩] : List TelemetrySample),
          |s.distance - (100 : ℚ)| ≤ |r.distance - (100 : ℚ)|) ∧
      reindexNearest [] (100 : ℚ) = none) :=
  ⟨by decide, by decide, nearest_error_conditions _ _ (by decide) (by decide)⟩

end F1Utils
